import Mathlib

/-!
A shallow embedding of the LED spatial-index core of this repository
(`backend/led_locations.py`, together with the strategy-scoping helpers of
`backend/ceiling.py`), and theorems settling the specification claims
about it.

Conventions used throughout:

* Python floats are modelled by exact rationals `ℚ` (and by `ℝ` where the
  source uses trigonometry).  Euclidean distances are represented by their
  squares, which keeps every comparison inside `ℚ`: every distance
  comparison in the source compares nonnegative square roots, and squaring
  is strictly monotone on nonnegatives, so all order outcomes agree.
* The third-party `smartquadtree.Quadtree` is not part of this repository;
  it is modelled by the list of inserted points, with `elements()` under a
  polygon mask yielding the points lying inside the mask polygon.
* `functools.lru_cache` memoisation is modelled by association lists
  keyed by the query arguments; the size-1000 eviction bound is not
  modelled (no scenario below ever reaches 1000 distinct keys, so the
  bounded and unbounded caches behave identically on them).
-/

/-- An LED with an estimated position and its wiring index
(class `LED` of `backend/led_locations.py`). -/
structure LED where
  x : ℚ
  y : ℚ
  index : ℕ
deriving DecidableEq, Repr

/-- Modelled from the spec: `distance_formula` lives in `backend/util.py`,
which is not under `src/`; spec section 4.1 defines it as the standard
Euclidean distance.  It is represented here by its square so that it stays
inside `ℚ`. -/
def distSq (x1 y1 x2 y2 : ℚ) : ℚ :=
  (x1 - x2) ^ 2 + (y1 - y2) ^ 2

/-- Proposition that the Euclidean distance whose square is `dsq` strictly
exceeds `d`: the source comparison `distance > max_distance`, where
`distance = sqrt dsq ≥ 0`. -/
def distGT (dsq d : ℚ) : Prop :=
  d < 0 ∨ d ^ 2 < dsq

instance (dsq d : ℚ) : Decidable (distGT dsq d) := by
  unfold distGT; infer_instance

/-- Proposition that the Euclidean distance whose square is `dsq` is at most
`d` (the light lies within distance `d` of the query point). -/
def distLE (dsq d : ℚ) : Prop :=
  0 ≤ d ∧ dsq ≤ d ^ 2

instance (dsq d : ℚ) : Decidable (distLE dsq d) := by
  unfold distLE; infer_instance

/-- Positions and indices of the LEDs of row `i`: the inner
`for j in range(lights_per_row[i])` loop of `LEDSpace.map_LEDs_in_zigzag`.
`count` is `lights_per_row[i]`; Python `range` of a non-positive integer is
empty, hence `count.toNat`. -/
def rowLights (count : ℤ) (i : ℕ) (rowHeight : ℚ) (startIndex : ℕ) : List LED :=
  (List.range count.toNat).map fun (j : ℕ) =>
    if i % 2 = 0 then
      { x := 1 - (((j : ℚ) + 1) / (count : ℚ))
        y := (i : ℚ) * rowHeight + ((j : ℚ) / (count : ℚ)) * rowHeight
        index := startIndex + j }
    else
      { x := (j : ℚ) / (count : ℚ)
        y := (i : ℚ) * rowHeight + ((j : ℚ) / (count : ℚ)) * rowHeight
        index := startIndex + j }

/-- The outer `for i in range(len(lights_per_row))` loop of
`map_LEDs_in_zigzag`, accumulating the running insertion index. -/
def buildRows : List ℤ → ℕ → ℚ → ℕ → List LED
  | [], _, _, _ => []
  | c :: rest, i, rowHeight, startIndex =>
      rowLights c i rowHeight startIndex ++
        buildRows rest (i + 1) rowHeight (startIndex + c.toNat)

/-- The list of LEDs that `map_LEDs_in_zigzag` inserts into the quadtree,
in insertion order.  On the empty layout the source raises
`ZeroDivisionError` at `row_height = 1 / len(lights_per_row)` (after having
reset the quadtree), modelled as `none`. -/
def zigzagLEDs (lightsPerRow : List ℤ) : Option (List LED) :=
  match lightsPerRow with
  | [] => none
  | _ =>
      let rowHeight : ℚ :=
        if lightsPerRow.length = 1 then 1 else 1 / (lightsPerRow.length : ℚ)
      some (buildRows lightsPerRow 0 rowHeight 0)

/-- Membership in the closed axis-aligned box used by `get_LEDs_in_area`:
the source builds the rectangle
`[(left, bot), (left, top), (right, top), (right, bot)]` around `(x, y)`
and passes it to the external quadtree's polygon mask; on this rectangle
the mask keeps exactly the lights with `x` in `[x - w/2, x + w/2]` and `y`
in `[y - h/2, y + h/2]` (spec sections 4.2 and 8). -/
def inBox (x y width height : ℚ) (led : LED) : Prop :=
  x - width / 2 ≤ led.x ∧ led.x ≤ x + width / 2 ∧
    y - height / 2 ≤ led.y ∧ led.y ≤ y + height / 2

instance (x y width height : ℚ) (led : LED) : Decidable (inBox x y width height led) := by
  unfold inBox; infer_instance

/-- The pure content of `get_LEDs_in_area` on a given light list: the lights
inside the box, in insertion order. -/
def ledsInArea (lights : List LED) (x y width height : ℚ) : List LED :=
  lights.filter fun led => decide (inBox x y width height led)

/-- One pass of the candidate scan in `get_closest_LED_index`.  `best`
carries the current `closest` LED paired with the square of
`closest_distance`; the `9999999` sentinel of the source is never consulted
while `closest is None` (the `closest is None` disjunct short-circuits
first), so `none` models the initial state faithfully. -/
def closestScan (x y maxDistance : ℚ) : List LED → Option (LED × ℚ) → Option (LED × ℚ)
  | [], best => best
  | led :: rest, best =>
      let dsq := distSq x y led.x led.y
      if distGT dsq maxDistance then
        closestScan x y maxDistance rest best
      else
        match best with
        | none => closestScan x y maxDistance rest (some (led, dsq))
        | some (b, bsq) =>
            if dsq < bsq then closestScan x y maxDistance rest (some (led, dsq))
            else closestScan x y maxDistance rest (some (b, bsq))

/-- The pure computation of `get_closest_LED_index` on a given light list:
query the box of width and height `2 * max_distance` centred on the query
point, then scan the candidates. -/
def closestLEDIndex (lights : List LED) (x y maxDistance : ℚ) : Option ℕ :=
  (closestScan x y maxDistance
      (ledsInArea lights x y (maxDistance * 2) (maxDistance * 2)) none).map
    (·.1.index)

/-- First-match lookup in an association list: the memo table of
`functools.lru_cache`, keyed by the query arguments. -/
def memoLookup {K V : Type} [DecidableEq K] : List (K × V) → K → Option V
  | [], _ => none
  | (k, v) :: rest, key => if key = k then some v else memoLookup rest key

/-- The state of an `LEDSpace` object together with the memo tables that
`functools.lru_cache` attaches to its three query methods.  `quadtree` is
`none` exactly when `self._quadtree is None`; otherwise it holds the
inserted LEDs in insertion order.  `cacheRadius` records only the keys of
memoised `get_LEDs_in_radius` calls: the stored result lists play no role
in any claim settled below, and are not representable in `ℚ` (the circle
mask is trigonometric, see `mask_for_radius`). -/
structure LEDSpace where
  quadtree : Option (List LED)
  savedValues : Option (List LED)
  cacheArea : List ((ℚ × ℚ × ℚ × ℚ) × List LED)
  cacheRadius : List (ℚ × ℚ × ℚ)
  cacheClosest : List ((ℚ × ℚ × ℚ) × Option ℕ)
deriving DecidableEq

namespace LEDSpace

/-- The constructor `LEDSpace.__init__`: a fresh empty quadtree over the
unit square, nothing saved, memo tables empty. -/
def init : LEDSpace := ⟨some [], none, [], [], []⟩

/-- Method `map_LEDs_in_zigzag`: resets the quadtree to a fresh one, then
inserts the zigzag lights.  On the empty layout the reset has already
happened when the `ZeroDivisionError` is raised, so the quadtree is left
empty.  In both cases neither `_saved_values` nor any memo table is
touched. -/
def map_LEDs_in_zigzag (s : LEDSpace) (lightsPerRow : List ℤ) : LEDSpace :=
  match zigzagLEDs lightsPerRow with
  | none => { s with quadtree := some [] }
  | some ls => { s with quadtree := some ls }

/-- Method `save_quadtree_values_in_list`.  With the quadtree unset and
values already saved it returns immediately.  With both unset the source
raises `AttributeError` at `self._quadtree.set_mask(None)` before any
mutation, leaving the state unchanged as well.  Otherwise the quadtree
elements are saved in order and the quadtree is unset. -/
def save_quadtree_values_in_list (s : LEDSpace) : LEDSpace :=
  match s.quadtree with
  | none => s
  | some ls => { s with savedValues := some ls, quadtree := none }

/-- Method `restore_quadtree`: a no-op when nothing is saved; otherwise the
quadtree is rebuilt by inserting the saved values in order, and the saved
list is cleared. -/
def restore_quadtree (s : LEDSpace) : LEDSpace :=
  match s.savedValues with
  | none => s
  | some vs => { s with quadtree := some vs, savedValues := none }

/-- Method `clear_caches`: clears the three memo tables. -/
def clear_caches (s : LEDSpace) : LEDSpace :=
  { s with cacheArea := [], cacheRadius := [], cacheClosest := [] }

/-- Method `get_LEDs_in_area` as invoked through its `lru_cache` wrapper:
on a memo hit the body never runs (no restore, no state change); on a miss
the body restores the quadtree if it is unset, filters the elements through
the rectangle mask, and the result is memoised.  The result is `none` when
the source raises `AttributeError` (quadtree unset with nothing saved). -/
def get_LEDs_in_area (s : LEDSpace) (x y width height : ℚ) :
    LEDSpace × Option (List LED) :=
  match memoLookup s.cacheArea (x, y, width, height) with
  | some res => (s, some res)
  | none =>
      let s1 := if s.quadtree = none then s.restore_quadtree else s
      match s1.quadtree with
      | none => (s1, none)
      | some ls =>
          let res := ledsInArea ls x y width height
          ({ s1 with cacheArea := ((x, y, width, height), res) :: s1.cacheArea },
            some res)

/-- Method `get_closest_LED_index` through its `lru_cache` wrapper: on a
memo miss the body first calls `self.get_LEDs_in_area` (itself memoised),
scans the candidates, and memoises the result.  `none` in the outer
`Option` is the propagated `AttributeError`. -/
def get_closest_LED_index (s : LEDSpace) (x y maxDistance : ℚ) :
    LEDSpace × Option (Option ℕ) :=
  match memoLookup s.cacheClosest (x, y, maxDistance) with
  | some res => (s, some res)
  | none =>
      match s.get_LEDs_in_area x y (maxDistance * 2) (maxDistance * 2) with
      | (s1, none) => (s1, none)
      | (s1, some results) =>
          let res := (closestScan x y maxDistance results none).map (·.1.index)
          ({ s1 with cacheClosest := ((x, y, maxDistance), res) :: s1.cacheClosest },
            some res)

/-- The state effect of method `get_LEDs_in_radius` through its `lru_cache`
wrapper: a memo hit changes nothing; a miss restores the quadtree if unset
and memoises under the `(x, y, radius)` key.  The memoised result — the
lights inside the 10-point circle mask, see `ledInRadius` — plays no role
in any state claim and is tracked by key only. -/
def get_LEDs_in_radius_state (s : LEDSpace) (x y radius : ℚ) : LEDSpace :=
  if (x, y, radius) ∈ s.cacheRadius then s
  else
    let s1 := if s.quadtree = none then s.restore_quadtree else s
    match s1.quadtree with
    | none => s1
    | some _ => { s1 with cacheRadius := (x, y, radius) :: s1.cacheRadius }

end LEDSpace

/-- One call against an `LEDSpace`, for reachability statements. -/
inductive LEDOp where
  | mapZ (lightsPerRow : List ℤ)
  | save
  | restore
  | area (x y width height : ℚ)
  | radius (x y radius : ℚ)
  | closest (x y maxDistance : ℚ)
deriving DecidableEq

/-- The `LEDSpace` state reached after one call. -/
def LEDStep (s : LEDSpace) : LEDOp → LEDSpace
  | .mapZ l => s.map_LEDs_in_zigzag l
  | .save => s.save_quadtree_values_in_list
  | .restore => s.restore_quadtree
  | .area x y w h => (s.get_LEDs_in_area x y w h).1
  | .radius x y r => s.get_LEDs_in_radius_state x y r
  | .closest x y d => (s.get_closest_LED_index x y d).1

/-- The lifecycle invariant of the spec: the structure is either attached
(quadtree live, saved list absent) or detached (quadtree absent, saved
list present), never both populated. -/
def LifecycleInv (s : LEDSpace) : Prop :=
  (s.quadtree ≠ none ∧ s.savedValues = none) ∨
    (s.quadtree = none ∧ s.savedValues ≠ none)

instance (s : LEDSpace) : Decidable (LifecycleInv s) := by
  unfold LifecycleInv; infer_instance

/-- The sample angle of iteration `i` of the loop in `_mask_for_radius`:
`np.arange(0, 2 * np.pi, (2 * np.pi) / number_points)` yields, in exact
arithmetic, the `number_points` values `i * (2π / n)` for `i = 0, 1, ...`,
in increasing order. -/
noncomputable def maskTheta (numberPoints : ℕ) (i : ℕ) : ℝ :=
  2 * Real.pi / (numberPoints : ℝ) * (i : ℝ)

/-- Function `_mask_for_radius` of `backend/led_locations.py` (leading
underscore dropped): the polygon of `number_points` samples of the circle
of the given radius around `(x, y)`, in increasing-angle order.  The
trigonometry forces this part of the model into `ℝ`. -/
noncomputable def mask_for_radius (x y radius : ℝ) (numberPoints : ℕ) : List (ℝ × ℝ) :=
  (List.range numberPoints).map fun i =>
    (Real.cos (maskTheta numberPoints i) * radius + x,
      Real.sin (maskTheta numberPoints i) * radius + y)

/-- Consecutive edges of a polygon given by its vertex list, the closing
edge included. -/
def polygonEdges (poly : List (ℝ × ℝ)) : List ((ℝ × ℝ) × (ℝ × ℝ)) :=
  poly.zip (poly.rotate 1)

/-- Whether the horizontal ray from `p` crosses the polygon edge from `a`
to `b` (the standard even-odd ray-casting test).  The `smartquadtree`
polygon mask is external to this repository; the spec (section 4.2)
specifies it as keeping the points inside the mask polygon, modelled here
by the even-odd rule. -/
def edgeCrossed (p a b : ℝ × ℝ) : Prop :=
  ((a.2 ≤ p.2 ∧ p.2 < b.2) ∨ (b.2 ≤ p.2 ∧ p.2 < a.2)) ∧
    p.1 < a.1 + (p.2 - a.2) * (b.1 - a.1) / (b.2 - a.2)

/-- Odd parity of the set of crossed edges, as a `Prop`-level
exclusive-or fold. -/
def crossingParity (p : ℝ × ℝ) : List ((ℝ × ℝ) × (ℝ × ℝ)) → Prop
  | [] => False
  | e :: rest =>
      (edgeCrossed p e.1 e.2 ∧ ¬ crossingParity p rest) ∨
        (¬ edgeCrossed p e.1 e.2 ∧ crossingParity p rest)

/-- Point-in-polygon membership by the even-odd rule. -/
def inPolygon (poly : List (ℝ × ℝ)) (p : ℝ × ℝ) : Prop :=
  crossingParity p (polygonEdges poly)

/-- Result membership for `get_LEDs_in_radius`: the method sets the mask to
`_mask_for_radius(x, y, radius, 10)` and yields the quadtree elements lying
inside it. -/
def ledInRadius (lights : List LED) (x y radius : ℝ) (led : LED) : Prop :=
  led ∈ lights ∧
    inPolygon (mask_for_radius x y radius 10) ((led.x : ℝ), (led.y : ℝ))

/-- The indexing strategy held in `Ceiling._indexing`, identified by its
kind and construction parameters.  The strategy classes live in the sibling
`backend/*_indexing.py` files; only strategy identity matters to the
strategy-scoping helpers of `backend/ceiling.py` modelled below. -/
inductive Strategy where
  | linear
  | row (lightsPerRow : List ℤ)
  | cartesian (lightsPerRow : List ℤ) (searchRange : ℚ)
  | polar (origin : ℚ × ℚ) (lightsPerRow : List ℤ) (searchRange : ℚ)
  | floatCartesian (lightsPerRow : List ℤ) (effectRadius : ℚ)
  | floatPolar (origin : ℚ × ℚ) (lightsPerRow : List ℤ) (effectRadius : ℚ)
deriving DecidableEq

/-- Constant `CEILING_ROW_ARRANGEMENT` of `backend/ceiling.py`, the default layout
of the keyword arguments of the `use_*` methods. -/
def CEILING_ROW_ARRANGEMENT : List ℤ := [29, 29, 32, 29, 32, 28, 20]

/-- The slice of `Ceiling` state that the strategy-scoping helpers read and
write: the `_indexing` field.  (`_pixels` and `_cached_led_spacing` are
neither read back nor restored by any of those helpers.) -/
structure Ceiling where
  indexing : Strategy
deriving DecidableEq

namespace Ceiling

/-- Method `use_linear`. -/
def use_linear (c : Ceiling) : Ceiling :=
  { c with indexing := .linear }

/-- Method `use_row`. -/
def use_row (c : Ceiling) (lightsPerRow : List ℤ) : Ceiling :=
  { c with indexing := .row lightsPerRow }

/-- Method `use_cartesian`. -/
def use_cartesian (c : Ceiling) (lightsPerRow : List ℤ) (searchRange : ℚ) : Ceiling :=
  { c with indexing := .cartesian lightsPerRow searchRange }

/-- Method `use_polar`. -/
def use_polar (c : Ceiling) (origin : ℚ × ℚ) (lightsPerRow : List ℤ)
    (searchRange : ℚ) : Ceiling :=
  { c with indexing := .polar origin lightsPerRow searchRange }

/-- Method `use_float_cartesian`. -/
def use_float_cartesian (c : Ceiling) (lightsPerRow : List ℤ) (effectRadius : ℚ) : Ceiling :=
  { c with indexing := .floatCartesian lightsPerRow effectRadius }

/-- Method `use_float_polar`. -/
def use_float_polar (c : Ceiling) (origin : ℚ × ℚ) (lightsPerRow : List ℤ)
    (effectRadius : ℚ) : Ceiling :=
  { c with indexing := .floatPolar origin lightsPerRow effectRadius }

/-- Method `with_linear`: saves `self._indexing`, switches to linear
indexing, runs `block`, and writes the saved strategy back.  The write-back
sits on the fall-through path only: an exception raised by `block`
propagates out of a `Ceiling` still holding the replacement strategy.
Exceptions are modelled by `Except` whose error value carries the ceiling
state at the point of the raise. -/
def with_linear (E : Type) (c : Ceiling)
    (block : Ceiling → Except (E × Ceiling) Ceiling) :
    Except (E × Ceiling) Ceiling :=
  let old := c.indexing
  match block (use_linear c) with
  | .ok c2 => .ok { c2 with indexing := old }
  | .error ec => .error ec

/-- Method `with_row` (`use_row` is invoked with its default layout). -/
def with_row (E : Type) (c : Ceiling)
    (block : Ceiling → Except (E × Ceiling) Ceiling) :
    Except (E × Ceiling) Ceiling :=
  let old := c.indexing
  match block (use_row c CEILING_ROW_ARRANGEMENT) with
  | .ok c2 => .ok { c2 with indexing := old }
  | .error ec => .error ec

/-- Method `with_cartesian`. -/
def with_cartesian (E : Type) (c : Ceiling)
    (block : Ceiling → Except (E × Ceiling) Ceiling)
    (lightsPerRow : List ℤ) (searchRange : ℚ) :
    Except (E × Ceiling) Ceiling :=
  let old := c.indexing
  match block (use_cartesian c lightsPerRow searchRange) with
  | .ok c2 => .ok { c2 with indexing := old }
  | .error ec => .error ec

/-- Method `with_polar`. -/
def with_polar (E : Type) (c : Ceiling)
    (block : Ceiling → Except (E × Ceiling) Ceiling)
    (origin : ℚ × ℚ) (lightsPerRow : List ℤ) (searchRange : ℚ) :
    Except (E × Ceiling) Ceiling :=
  let old := c.indexing
  match block (use_polar c origin lightsPerRow searchRange) with
  | .ok c2 => .ok { c2 with indexing := old }
  | .error ec => .error ec

/-- Method `with_float_cartesian`. -/
def with_float_cartesian (E : Type) (c : Ceiling)
    (block : Ceiling → Except (E × Ceiling) Ceiling)
    (lightsPerRow : List ℤ) (effectRadius : ℚ) :
    Except (E × Ceiling) Ceiling :=
  let old := c.indexing
  match block (use_float_cartesian c lightsPerRow effectRadius) with
  | .ok c2 => .ok { c2 with indexing := old }
  | .error ec => .error ec

/-- Method `with_float_polar`. -/
def with_float_polar (E : Type) (c : Ceiling)
    (block : Ceiling → Except (E × Ceiling) Ceiling)
    (origin : ℚ × ℚ) (lightsPerRow : List ℤ) (effectRadius : ℚ) :
    Except (E × Ceiling) Ceiling :=
  let old := c.indexing
  match block (use_float_polar c origin lightsPerRow effectRadius) with
  | .ok c2 => .ok { c2 with indexing := old }
  | .error ec => .error ec

end Ceiling

/-- The lights of layout `[2, 3]`, used by several concrete instances. -/
def lights23 : List LED :=
  [⟨1/2, 0, 0⟩, ⟨0, 1/4, 1⟩, ⟨0, 1/2, 2⟩, ⟨1/3, 2/3, 3⟩, ⟨2/3, 5/6, 4⟩]

theorem zigzagLEDs_two_three : zigzagLEDs [2, 3] = some lights23 := by
  simp [zigzagLEDs, buildRows, rowLights, List.range_succ, lights23]
  norm_num

theorem rowLights_map_index (c : ℤ) (i : ℕ) (rh : ℚ) (idx : ℕ) :
    (rowLights c i rh idx).map LED.index = List.range' idx c.toNat := by
  by_cases h : i % 2 = 0 <;>
    simp [rowLights, h, List.range'_eq_map_range, Function.comp_def]

theorem buildRows_map_index (rows : List ℤ) (i idx : ℕ) (rh : ℚ) :
    (buildRows rows i rh idx).map LED.index =
      List.range' idx (rows.map Int.toNat).sum := by
  induction rows generalizing i idx with
  | nil => simp [buildRows]
  | cons c rest ih =>
      simp only [buildRows, List.map_append, rowLights_map_index, ih,
        List.map_cons, List.sum_cons]
      rw [show idx + c.toNat = idx + 1 * c.toNat by ring, List.range'_append]
      congr 1
      omega

theorem buildRows_length (rows : List ℤ) (i idx : ℕ) (rh : ℚ) :
    (buildRows rows i rh idx).length = (rows.map Int.toNat).sum := by
  have h := congrArg List.length (buildRows_map_index rows i idx rh)
  simpa using h

theorem sum_toNat_of_nonneg (rows : List ℤ) (h : ∀ c ∈ rows, 0 ≤ c) :
    (rows.map Int.toNat).sum = rows.sum.toNat := by
  induction rows with
  | nil => simp
  | cons c rest ih =>
      have hc : 0 ≤ c := h c (by simp)
      have hrest : 0 ≤ rest.sum := List.sum_nonneg fun a ha => h a (by simp [ha])
      have := ih fun a ha => h a (by simp [ha])
      simp only [List.map_cons, List.sum_cons, this]
      omega

/-- C3: for every valid layout (nonempty, all row counts positive),
`map_LEDs_in_zigzag` produces exactly `sum(layout)` lights whose indices
are precisely `0, 1, ..., sum(layout) - 1` in insertion order: a contiguous
range with no duplicates and no gaps, strictly increasing. -/
theorem zigzag_indices_contiguous (layout : List ℤ) (lights : List LED)
    (hpos : ∀ c ∈ layout, 0 < c)
    (hmap : zigzagLEDs layout = some lights) :
    lights.length = layout.sum.toNat ∧
      lights.map LED.index = List.range layout.sum.toNat := by
  have hsum : (layout.map Int.toNat).sum = layout.sum.toNat :=
    sum_toNat_of_nonneg layout fun c hc => le_of_lt (hpos c hc)
  cases layout with
  | nil => simp [zigzagLEDs] at hmap
  | cons c rest =>
      have : lights = buildRows (c :: rest) 0
          (if (c :: rest).length = 1 then 1 else 1 / ((c :: rest).length : ℚ)) 0 := by
        simpa [zigzagLEDs] using hmap.symm
      subst this
      refine ⟨by rw [buildRows_length, hsum], ?_⟩
      rw [buildRows_map_index, ← hsum, List.range_eq_range']

/-- C3 witness at the layout `[2, 3]`. -/
theorem zigzag_indices_contiguous_witness :
    lights23.length = ((5 : ℤ)).toNat ∧
      lights23.map LED.index = List.range ((5 : ℤ)).toNat :=
  zigzag_indices_contiguous [2, 3] lights23 (by decide) zigzagLEDs_two_three

/-- C7 counterexample: the layout `[2, 0]` contains a non-positive row
count, yet `map_LEDs_in_zigzag` raises nothing: it silently produces just
the two lights of row 0 — a partial mapping, not an error. -/
theorem map_nonpositive_row_no_error :
    zigzagLEDs [2, 0] = some [⟨1/2, 0, 0⟩, ⟨0, 1/4, 1⟩] ∧
      zigzagLEDs [2, 0] ≠ none := by
  constructor
  · simp [zigzagLEDs, buildRows, rowLights, List.range_succ]
    norm_num
  · simp [zigzagLEDs]

/-- C7 amended: only the empty layout is fatal to `map_LEDs_in_zigzag`
(a `ZeroDivisionError` raised after the quadtree has been reset, leaving it
empty); a non-positive row count in a nonempty layout does not raise — its
row is silently skipped and the mapping proceeds, producing exactly the
lights of the positive-count rows. -/
theorem map_raises_iff_empty (layout : List ℤ) :
    zigzagLEDs [] = none ∧
      (layout ≠ [] → ∃ lights, zigzagLEDs layout = some lights ∧
        lights.length = (layout.map Int.toNat).sum) := by
  refine ⟨rfl, fun hne => ?_⟩
  cases layout with
  | nil => exact absurd rfl hne
  | cons c rest =>
      exact ⟨_, rfl, buildRows_length _ _ _ _⟩

/-- C7 amended witness: the empty layout raises while `[2, 0]` maps two
lights. -/
theorem map_raises_iff_empty_witness :
    ∃ lights, zigzagLEDs [2, 0] = some lights ∧
      lights.length = ([2, 0].map Int.toNat).sum :=
  (map_raises_iff_empty [2, 0]).2 (by decide)

/-- C4 counterexample: the claim places the lights of row 1 of layout
`[2, 3]` at x values 0.333 and 0.667 for indices 3 and 4; the mapping
actually places them at x = 1/3 and x = 2/3 (the lights are evenly spaced
at thirds), which differ from 0.333 and 0.667. -/
theorem zigzag_two_three_exact_thirds :
    zigzagLEDs [2, 3] = some lights23 ∧
      lights23.map LED.x = [1/2, 0, 0, 1/3, 2/3] ∧
      (1 : ℚ)/3 ≠ 333/1000 ∧ (2 : ℚ)/3 ≠ 667/1000 := by
  refine ⟨zigzagLEDs_two_three, by simp [lights23], by norm_num, by norm_num⟩

/-- C4 amended: for layout `[2, 3]`, row 0's lights lie in the y-band
`[0, 1/2)` (y values 0 and 1/4) at x values 1/2 and 0 for indices 0 and 1,
and row 1's lights lie in the y-band `[1/2, 1)` (y values 1/2, 2/3, 5/6) at
x values 0, 1/3 and 2/3 for indices 2, 3 and 4; and
`get_closest_LED_index(0.0, 0.6, 0.1)` on that mapping returns index 2. -/
theorem zigzag_two_three_scenario :
    zigzagLEDs [2, 3] = some lights23 ∧
      lights23.map LED.index = [0, 1, 2, 3, 4] ∧
      lights23.map LED.x = [1/2, 0, 0, 1/3, 2/3] ∧
      lights23.map LED.y = [0, 1/4, 1/2, 2/3, 5/6] ∧
      closestLEDIndex lights23 0 (3/5) (1/10) = some 2 := by
  refine ⟨zigzagLEDs_two_three, by simp [lights23], by simp [lights23],
    by simp [lights23], ?_⟩
  simp [closestLEDIndex, lights23, ledsInArea, inBox, closestScan, distSq, distGT]
  norm_num [closestScan, distSq, distGT]

theorem rowLights_bounds (c : ℤ) (i : ℕ) (rh : ℚ) (idx : ℕ)
    (hc : 0 < c) (hrh : 0 < rh) :
    ∀ led ∈ rowLights c i rh idx,
      0 ≤ led.x ∧ led.x < 1 ∧
        (i : ℚ) * rh ≤ led.y ∧ led.y < ((i : ℚ) + 1) * rh := by
  intro led hled
  simp only [rowLights, List.mem_map, List.mem_range] at hled
  obtain ⟨j, hj, rfl⟩ := hled
  have hcq : (0 : ℚ) < (c : ℚ) := by exact_mod_cast hc
  have hjc : (j : ℚ) < (c : ℚ) := by
    have : (j : ℤ) < c := by omega
    exact_mod_cast this
  have hj1c : (j : ℚ) + 1 ≤ (c : ℚ) := by
    have : (j : ℤ) + 1 ≤ c := by omega
    exact_mod_cast this
  have hdiv0 : (0 : ℚ) ≤ (j : ℚ) / (c : ℚ) := by positivity
  have hdiv1 : (j : ℚ) / (c : ℚ) < 1 := (div_lt_one hcq).mpr hjc
  by_cases h : i % 2 = 0 <;> simp only [h, if_true, if_false, reduceIte] <;>
    refine ⟨?_, ?_, ?_, ?_⟩
  · have h1 : ((j : ℚ) + 1) / (c : ℚ) ≤ 1 := (div_le_one hcq).mpr hj1c
    linarith
  · have h0 : (0 : ℚ) < ((j : ℚ) + 1) / (c : ℚ) := by positivity
    linarith
  · nlinarith
  · nlinarith
  · exact hdiv0
  · exact hdiv1
  · nlinarith
  · nlinarith

theorem buildRows_bounds (rh : ℚ) (hrh : 0 < rh) :
    ∀ (rows : List ℤ) (i idx : ℕ), (∀ c ∈ rows, 0 < c) →
      ((i : ℚ) + (rows.length : ℚ)) * rh ≤ 1 →
      ∀ led ∈ buildRows rows i rh idx,
        0 ≤ led.x ∧ led.x < 1 ∧ 0 ≤ led.y ∧ led.y < 1
  | [], i, idx, _, _ => by simp [buildRows]
  | c :: rest, i, idx, hpos, hbound => by
      intro led hled
      rw [buildRows, List.mem_append] at hled
      have hlen : ((c :: rest).length : ℚ) = (rest.length : ℚ) + 1 := by
        push_cast [List.length_cons]; ring
      rcases hled with h | h
      · obtain ⟨hx0, hx1, hy0, hy1⟩ :=
          rowLights_bounds c i rh idx (hpos c (by simp)) hrh led h
        have hi0 : (0 : ℚ) ≤ (i : ℚ) * rh := by positivity
        have hstep : ((i : ℚ) + 1) * rh ≤ 1 := by
          have hr : (0 : ℚ) ≤ (rest.length : ℚ) := by positivity
          nlinarith [hbound, hlen]
        exact ⟨hx0, hx1, by linarith, by linarith⟩
      · refine buildRows_bounds rh hrh rest (i + 1) (idx + c.toNat)
          (fun a ha => hpos a (by simp [ha])) ?_ led h
        have : ((i : ℚ) + 1 + (rest.length : ℚ)) = ((i : ℚ) + ((c :: rest).length : ℚ)) := by
          rw [hlen]; ring
        push_cast
        rw [this]
        exact hbound

/-- C10: every light produced by `map_LEDs_in_zigzag` from a valid layout
(all row counts positive) lies strictly inside the half-open unit square:
`0 ≤ x < 1` and `0 ≤ y < 1`; none lies on the `x = 1` or `y = 1` edge or
outside the quadtree's unit-square domain. -/
theorem zigzag_in_unit_square (layout : List ℤ) (lights : List LED)
    (hpos : ∀ c ∈ layout, 0 < c) (hmap : zigzagLEDs layout = some lights) :
    ∀ led ∈ lights, 0 ≤ led.x ∧ led.x < 1 ∧ 0 ≤ led.y ∧ led.y < 1 := by
  cases layout with
  | nil => simp [zigzagLEDs] at hmap
  | cons c rest =>
      have hl : lights = buildRows (c :: rest) 0
          (if (c :: rest).length = 1 then 1 else 1 / ((c :: rest).length : ℚ)) 0 := by
        simpa [zigzagLEDs] using hmap.symm
      subst hl
      by_cases h1 : (c :: rest).length = 1
      · rw [if_pos h1]
        refine buildRows_bounds 1 one_pos (c :: rest) 0 0 hpos ?_
        rw [h1]; norm_num
      · rw [if_neg h1]
        have hlp : (0 : ℚ) < ((c :: rest).length : ℚ) := by
          have : 0 < (c :: rest).length := by simp
          exact_mod_cast this
        refine buildRows_bounds _ (by positivity) (c :: rest) 0 0 hpos ?_
        rw [Nat.cast_zero, zero_add, mul_one_div, div_self (ne_of_gt hlp)]

/-- C10 witness: the first light of layout `[2, 3]`. -/
theorem zigzag_in_unit_square_witness :
    0 ≤ (⟨1/2, 0, 0⟩ : LED).x ∧ (⟨1/2, 0, 0⟩ : LED).x < 1 ∧
      0 ≤ (⟨1/2, 0, 0⟩ : LED).y ∧ (⟨1/2, 0, 0⟩ : LED).y < 1 :=
  zigzag_in_unit_square [2, 3] lights23 (by decide) zigzagLEDs_two_three
    ⟨1/2, 0, 0⟩ (by simp [lights23])

theorem distGT_iff_not_distLE (dsq d : ℚ) : distGT dsq d ↔ ¬ distLE dsq d := by
  unfold distGT distLE
  constructor
  · rintro (h | h) ⟨h1, h2⟩ <;> linarith
  · intro h
    by_contra hc
    push_neg at hc
    exact h ⟨hc.1, hc.2⟩

theorem mem_ledsInArea (lights : List LED) (x y w h : ℚ) (led : LED) :
    led ∈ ledsInArea lights x y w h ↔ led ∈ lights ∧ inBox x y w h led := by
  simp [ledsInArea, List.mem_filter]

theorem inBox_of_distLE (x y d : ℚ) (led : LED)
    (h : distLE (distSq x y led.x led.y) d) :
    inBox x y (d * 2) (d * 2) led := by
  obtain ⟨hd, hsq⟩ := h
  unfold distSq at hsq
  refine ⟨?_, ?_, ?_, ?_⟩ <;>
    nlinarith [sq_nonneg (x - led.x), sq_nonneg (y - led.y),
      sq_nonneg (x - led.x - d), sq_nonneg (x - led.x + d),
      sq_nonneg (y - led.y - d), sq_nonneg (y - led.y + d)]

theorem closestScan_cons_gt (x y d : ℚ) (l : LED) (rest : List LED)
    (best : Option (LED × ℚ)) (hgt : distGT (distSq x y l.x l.y) d) :
    closestScan x y d (l :: rest) best = closestScan x y d rest best := by
  simp [closestScan, hgt]

theorem closestScan_cons_keep_none (x y d : ℚ) (l : LED) (rest : List LED)
    (hgt : ¬ distGT (distSq x y l.x l.y) d) :
    closestScan x y d (l :: rest) none =
      closestScan x y d rest (some (l, distSq x y l.x l.y)) := by
  simp [closestScan, hgt]

theorem closestScan_cons_keep_closer (x y d : ℚ) (l : LED) (rest : List LED)
    (b : LED) (bsq : ℚ) (hgt : ¬ distGT (distSq x y l.x l.y) d)
    (hlt : distSq x y l.x l.y < bsq) :
    closestScan x y d (l :: rest) (some (b, bsq)) =
      closestScan x y d rest (some (l, distSq x y l.x l.y)) := by
  simp [closestScan, hgt, hlt]

theorem closestScan_cons_keep_farther (x y d : ℚ) (l : LED) (rest : List LED)
    (b : LED) (bsq : ℚ) (hgt : ¬ distGT (distSq x y l.x l.y) d)
    (hlt : ¬ distSq x y l.x l.y < bsq) :
    closestScan x y d (l :: rest) (some (b, bsq)) =
      closestScan x y d rest (some (b, bsq)) := by
  simp [closestScan, hgt, hlt]

theorem closestScan_some (x y d : ℚ) (cands : List LED) :
    ∀ (best : Option (LED × ℚ)) (led : LED) (dsq : ℚ),
      closestScan x y d cands best = some (led, dsq) →
      some (led, dsq) = best ∨
        (led ∈ cands ∧ dsq = distSq x y led.x led.y ∧ ¬ distGT dsq d) := by
  induction cands with
  | nil =>
      intro best led dsq h
      exact .inl (by simpa [closestScan] using h.symm)
  | cons l rest ih =>
      intro best led dsq h
      by_cases hgt : distGT (distSq x y l.x l.y) d
      · rw [closestScan_cons_gt x y d l rest best hgt] at h
        rcases ih best led dsq h with h' | h'
        · exact .inl h'
        · exact .inr ⟨List.mem_cons_of_mem _ h'.1, h'.2⟩
      · cases best with
        | none =>
            rw [closestScan_cons_keep_none x y d l rest hgt] at h
            rcases ih _ led dsq h with h' | h'
            · rw [Option.some_inj, Prod.mk.injEq] at h'
              obtain ⟨rfl, rfl⟩ := h'
              exact .inr ⟨List.mem_cons_self _ _, rfl, hgt⟩
            · exact .inr ⟨List.mem_cons_of_mem _ h'.1, h'.2⟩
        | some p =>
            obtain ⟨b, bsq⟩ := p
            by_cases hlt : distSq x y l.x l.y < bsq
            · rw [closestScan_cons_keep_closer x y d l rest b bsq hgt hlt] at h
              rcases ih _ led dsq h with h' | h'
              · rw [Option.some_inj, Prod.mk.injEq] at h'
                obtain ⟨rfl, rfl⟩ := h'
                exact .inr ⟨List.mem_cons_self _ _, rfl, hgt⟩
              · exact .inr ⟨List.mem_cons_of_mem _ h'.1, h'.2⟩
            · rw [closestScan_cons_keep_farther x y d l rest b bsq hgt hlt] at h
              rcases ih _ led dsq h with h' | h'
              · exact .inl h'
              · exact .inr ⟨List.mem_cons_of_mem _ h'.1, h'.2⟩

theorem closestScan_ne_none (x y d : ℚ) (cands : List LED) :
    ∀ (b : LED) (bsq : ℚ), closestScan x y d cands (some (b, bsq)) ≠ none := by
  induction cands with
  | nil => intro b bsq; simp [closestScan]
  | cons l rest ih =>
      intro b bsq
      by_cases hgt : distGT (distSq x y l.x l.y) d
      · rw [closestScan_cons_gt x y d l rest _ hgt]
        exact ih b bsq
      · by_cases hlt : distSq x y l.x l.y < bsq
        · rw [closestScan_cons_keep_closer x y d l rest b bsq hgt hlt]
          exact ih _ _
        · rw [closestScan_cons_keep_farther x y d l rest b bsq hgt hlt]
          exact ih _ _

theorem closestScan_none_iff (x y d : ℚ) (cands : List LED) :
    closestScan x y d cands none = none ↔
      ∀ led ∈ cands, distGT (distSq x y led.x led.y) d := by
  induction cands with
  | nil => simp [closestScan]
  | cons l rest ih =>
      rw [List.forall_mem_cons]
      by_cases hgt : distGT (distSq x y l.x l.y) d
      · rw [closestScan_cons_gt x y d l rest _ hgt, ih]
        simp [hgt]
      · rw [closestScan_cons_keep_none x y d l rest hgt]
        simp only [hgt, false_and, iff_false]
        exact closestScan_ne_none x y d rest _ _

theorem zigzag_index_injective (layout : List ℤ) (lights : List LED)
    (hmap : zigzagLEDs layout = some lights) :
    ∀ a ∈ lights, ∀ b ∈ lights, a.index = b.index → a = b := by
  cases layout with
  | nil => simp [zigzagLEDs] at hmap
  | cons c rest =>
      have hl : lights = buildRows (c :: rest) 0
          (if (c :: rest).length = 1 then 1 else 1 / ((c :: rest).length : ℚ)) 0 := by
        simpa [zigzagLEDs] using hmap.symm
      subst hl
      have hnodup : ((buildRows (c :: rest) 0
          (if (c :: rest).length = 1 then 1 else 1 / ((c :: rest).length : ℚ)) 0).map
            LED.index).Nodup := by
        rw [buildRows_map_index]
        exact List.nodup_range' _ _
      intro a ha b hb hab
      exact List.inj_on_of_nodup_map hnodup ha hb hab

/-- C2: on a mapped `LEDSpace`, `get_closest_LED_index` never returns the
index of a light whose Euclidean distance from the query point exceeds
`max_distance` (any mapped light carrying the returned index lies within
`max_distance`), and it returns `None` exactly when no mapped light lies
within `max_distance` of the query point. -/
theorem closest_LED_within_max_distance (layout : List ℤ) (lights : List LED)
    (x y maxDistance : ℚ) (hmap : zigzagLEDs layout = some lights) :
    (∀ i led, closestLEDIndex lights x y maxDistance = some i →
        led ∈ lights → led.index = i →
        distLE (distSq x y led.x led.y) maxDistance) ∧
      (closestLEDIndex lights x y maxDistance = none ↔
        ∀ led ∈ lights, ¬ distLE (distSq x y led.x led.y) maxDistance) := by
  constructor
  · intro i led hsome hmem hidx
    unfold closestLEDIndex at hsome
    rw [Option.map_eq_some'] at hsome
    obtain ⟨⟨led0, dsq0⟩, hscan, hix⟩ := hsome
    rcases closestScan_some x y maxDistance _ none led0 dsq0 hscan with h' | h'
    · exact absurd h' (by simp)
    · obtain ⟨hcand, rfl, hngt⟩ := h'
      have hmem0 := (mem_ledsInArea lights x y (maxDistance * 2) (maxDistance * 2) led0).mp hcand
      have hle : distLE (distSq x y led0.x led0.y) maxDistance := by
        rwa [distGT_iff_not_distLE, not_not] at hngt
      have heq : led = led0 :=
        zigzag_index_injective layout lights hmap led hmem led0 hmem0.1
          (by simpa [hidx] using hix.symm)
      rw [heq]
      exact hle
  · unfold closestLEDIndex
    rw [Option.map_eq_none', closestScan_none_iff]
    constructor
    · intro hall led hmem hle
      have hbox := inBox_of_distLE x y maxDistance led hle
      have hcand : led ∈ ledsInArea lights x y (maxDistance * 2) (maxDistance * 2) :=
        (mem_ledsInArea lights x y (maxDistance * 2) (maxDistance * 2) led).mpr ⟨hmem, hbox⟩
      exact (distGT_iff_not_distLE _ _).mp (hall led hcand) hle
    · intro hall led hcand
      have hm := (mem_ledsInArea lights x y (maxDistance * 2) (maxDistance * 2) led).mp hcand
      exact (distGT_iff_not_distLE _ _).mpr (hall led hm.1)

/-- C2 witness: on the single light of layout `[1]` a far-away query
returns `None`. -/
theorem closest_LED_within_max_distance_witness :
    closestLEDIndex [⟨0, 0, 0⟩] 1 1 (1/10) = none :=
  (closest_LED_within_max_distance [1] [⟨0, 0, 0⟩] 1 1 (1/10)
      (by simp [zigzagLEDs, buildRows, rowLights, List.range_succ])).2.mpr
    (by
      intro led hled
      simp only [List.mem_singleton] at hled
      subst hled
      norm_num [distLE, distSq])

theorem zigzagLEDs_one : zigzagLEDs [1] = some [⟨0, 0, 0⟩] := by
  simp [zigzagLEDs, buildRows, rowLights, List.range_succ]

theorem zigzagLEDs_two : zigzagLEDs [2] = some [⟨1/2, 0, 0⟩, ⟨0, 1/2, 1⟩] := by
  simp [zigzagLEDs, buildRows, rowLights, List.range_succ]
  norm_num

/-- C1 counterexample: `map_LEDs_in_zigzag` does not invalidate the query
cache.  Map layout `[1]`, ask `get_closest_LED_index(0.5, 0, 0.1)` (a miss,
memoised as `None`), remap to layout `[2]` — whose light 0 now sits exactly
at `(0.5, 0)` — and repeat the same call: the memoised `None` from the old
light set is returned, although computing from the new light set yields
index 0. -/
theorem map_does_not_invalidate_cache :
    ((((LEDSpace.init.map_LEDs_in_zigzag [1]).get_closest_LED_index
            (1/2) 0 (1/10)).1.map_LEDs_in_zigzag [2]).get_closest_LED_index
        (1/2) 0 (1/10)).2 = some none ∧
      (((LEDSpace.init.map_LEDs_in_zigzag [1]).get_closest_LED_index
            (1/2) 0 (1/10)).1.map_LEDs_in_zigzag [2]).quadtree =
        some [⟨1/2, 0, 0⟩, ⟨0, 1/2, 1⟩] ∧
      closestLEDIndex [⟨1/2, 0, 0⟩, ⟨0, 1/2, 1⟩] (1/2) 0 (1/10) = some 0 := by
  have h1 : LEDSpace.init.map_LEDs_in_zigzag [1] =
      ⟨some [⟨0, 0, 0⟩], none, [], [], []⟩ := by
    simp [LEDSpace.init, LEDSpace.map_LEDs_in_zigzag, zigzagLEDs_one]
  have harea : ledsInArea [⟨0, 0, 0⟩] 2⁻¹ 0 (10⁻¹ * 2) (10⁻¹ * 2) = [] := by
    simp [ledsInArea, inBox]
    norm_num
  have h2 : ((⟨some [⟨0, 0, 0⟩], none, [], [], []⟩ : LEDSpace).get_closest_LED_index
      (1/2) 0 (1/10)) =
      (⟨some [⟨0, 0, 0⟩], none, [((1/2, 0, 1/10 * 2, 1/10 * 2), [])], [],
        [((1/2, 0, 1/10), none)]⟩, some none) := by
    simp [LEDSpace.get_closest_LED_index, LEDSpace.get_LEDs_in_area, memoLookup,
      harea, closestScan]
  rw [h1, h2]
  refine ⟨?_, ?_, ?_⟩
  · simp [LEDSpace.map_LEDs_in_zigzag, zigzagLEDs_two, LEDSpace.get_closest_LED_index,
      memoLookup]
  · simp [LEDSpace.map_LEDs_in_zigzag, zigzagLEDs_two]
  · simp [closestLEDIndex, ledsInArea, inBox, closestScan, distSq, distGT]
    norm_num [closestScan, distSq, distGT]

/-- C1 amended: `map_LEDs_in_zigzag` itself leaves the three query memo
tables untouched, so a repeated query can return a result memoised against
the previous light set; invalidation is the separate `clear_caches` call,
after which `get_LEDs_in_area` and `get_closest_LED_index` compute their
results from the newly mapped light set. -/
theorem clear_caches_invalidates (s : LEDSpace) (layout : List ℤ)
    (lights : List LED) (x y w h d : ℚ)
    (hmap : zigzagLEDs layout = some lights) :
    ((s.map_LEDs_in_zigzag layout).cacheArea = s.cacheArea ∧
        (s.map_LEDs_in_zigzag layout).cacheRadius = s.cacheRadius ∧
        (s.map_LEDs_in_zigzag layout).cacheClosest = s.cacheClosest) ∧
      (((s.map_LEDs_in_zigzag layout).clear_caches).get_LEDs_in_area x y w h).2 =
        some (ledsInArea lights x y w h) ∧
      (((s.map_LEDs_in_zigzag layout).clear_caches).get_closest_LED_index x y d).2 =
        some (closestLEDIndex lights x y d) := by
  refine ⟨⟨?_, ?_, ?_⟩, ?_, ?_⟩
  · simp [LEDSpace.map_LEDs_in_zigzag, hmap]
  · simp [LEDSpace.map_LEDs_in_zigzag, hmap]
  · simp [LEDSpace.map_LEDs_in_zigzag, hmap]
  · simp [LEDSpace.map_LEDs_in_zigzag, hmap, LEDSpace.clear_caches,
      LEDSpace.get_LEDs_in_area, memoLookup]
  · simp [LEDSpace.map_LEDs_in_zigzag, hmap, LEDSpace.clear_caches,
      LEDSpace.get_closest_LED_index, LEDSpace.get_LEDs_in_area, memoLookup,
      closestLEDIndex]

/-- C1 amended witness at layout `[1]`. -/
theorem clear_caches_invalidates_witness :
    (((LEDSpace.init.map_LEDs_in_zigzag [1]).clear_caches).get_closest_LED_index
        0 0 (3/10)).2 = some (closestLEDIndex [⟨0, 0, 0⟩] 0 0 (3/10)) :=
  (clear_caches_invalidates LEDSpace.init [1] [⟨0, 0, 0⟩] 0 0 0 0 (3/10)
    zigzagLEDs_one).2.2

theorem roundtrip_id (s : LEDSpace) (ls : List LED)
    (hq : s.quadtree = some ls) (hs : s.savedValues = none) :
    s.save_quadtree_values_in_list.restore_quadtree = s := by
  obtain ⟨q, sv, ca, cr, cc⟩ := s
  simp only at hq hs
  subst hq hs
  rfl

/-- C5: `save_quadtree_values_in_list` is idempotent when the space is
already detached, and on an attached mapped space any number of
detach-then-reattach round trips is the identity on the state, so every
subsequent `get_LEDs_in_area`, `get_closest_LED_index` and
`get_LEDs_in_radius` query returns exactly what it returned before the
first detach. -/
theorem detach_reattach_roundtrip (s : LEDSpace) (ls : List LED) (n : ℕ)
    (hq : s.quadtree = some ls) (hs : s.savedValues = none) :
    (∀ t : LEDSpace, t.quadtree = none → t.savedValues ≠ none →
        t.save_quadtree_values_in_list = t) ∧
      (fun t : LEDSpace => t.save_quadtree_values_in_list.restore_quadtree)^[n] s = s ∧
      (∀ x y w h, ((fun t : LEDSpace =>
          t.save_quadtree_values_in_list.restore_quadtree)^[n] s).get_LEDs_in_area x y w h =
        s.get_LEDs_in_area x y w h) ∧
      (∀ x y d, ((fun t : LEDSpace =>
          t.save_quadtree_values_in_list.restore_quadtree)^[n] s).get_closest_LED_index x y d =
        s.get_closest_LED_index x y d) ∧
      (∀ x y r, ((fun t : LEDSpace =>
          t.save_quadtree_values_in_list.restore_quadtree)^[n] s).get_LEDs_in_radius_state x y r =
        s.get_LEDs_in_radius_state x y r) := by
  have hit : (fun t : LEDSpace =>
      t.save_quadtree_values_in_list.restore_quadtree)^[n] s = s :=
    @Function.iterate_fixed LEDSpace
      (fun t : LEDSpace => t.save_quadtree_values_in_list.restore_quadtree) s
      (roundtrip_id s ls hq hs) n
  refine ⟨?_, hit, ?_, ?_, ?_⟩
  · intro t htq hts
    unfold LEDSpace.save_quadtree_values_in_list
    rw [htq]
  · intro x y w h; rw [hit]
  · intro x y d; rw [hit]
  · intro x y r; rw [hit]

/-- C5 witness: two round trips on the mapped space of layout `[1]` leave
the state unchanged. -/
theorem detach_reattach_roundtrip_witness :
    (fun t : LEDSpace => t.save_quadtree_values_in_list.restore_quadtree)^[2]
        (LEDSpace.init.map_LEDs_in_zigzag [1]) =
      LEDSpace.init.map_LEDs_in_zigzag [1] :=
  (detach_reattach_roundtrip (LEDSpace.init.map_LEDs_in_zigzag [1]) [⟨0, 0, 0⟩] 2
      (by simp [LEDSpace.init, LEDSpace.map_LEDs_in_zigzag, zigzagLEDs_one])
      (by simp [LEDSpace.init, LEDSpace.map_LEDs_in_zigzag, zigzagLEDs_one])).2.1

/-- C8 counterexample: the three-call sequence `map [1]; save; map [1]`
starting from a fresh `LEDSpace` reaches a state in which the quadtree and
the saved list are both populated — `map_LEDs_in_zigzag` installs a fresh
quadtree without clearing `_saved_values`. -/
theorem map_while_detached_breaks_lifecycle :
    ¬ LifecycleInv (List.foldl LEDStep LEDSpace.init [.mapZ [1], .save, .mapZ [1]]) ∧
      (List.foldl LEDStep LEDSpace.init [.mapZ [1], .save, .mapZ [1]]).quadtree ≠ none ∧
      (List.foldl LEDStep LEDSpace.init [.mapZ [1], .save, .mapZ [1]]).savedValues ≠ none := by
  have h : List.foldl LEDStep LEDSpace.init [.mapZ [1], .save, .mapZ [1]] =
      ⟨some [⟨0, 0, 0⟩], some [⟨0, 0, 0⟩], [], [], []⟩ := by
    simp [LEDStep, LEDSpace.init, LEDSpace.map_LEDs_in_zigzag,
      LEDSpace.save_quadtree_values_in_list, zigzagLEDs_one]
  rw [h]
  refine ⟨?_, by simp, by simp⟩
  simp [LifecycleInv]

theorem lifecycleInv_cache_irrelevant (q sv : Option (List LED)) (ca ca' : List ((ℚ × ℚ × ℚ × ℚ) × List LED))
    (cr cr' : List (ℚ × ℚ × ℚ)) (cc cc' : List ((ℚ × ℚ × ℚ) × Option ℕ)) :
    LifecycleInv ⟨q, sv, ca, cr, cc⟩ ↔ LifecycleInv ⟨q, sv, ca', cr', cc'⟩ := by
  simp [LifecycleInv]

theorem lifecycleInv_area (s : LEDSpace) (x y w h : ℚ) (hinv : LifecycleInv s) :
    LifecycleInv (s.get_LEDs_in_area x y w h).1 := by
  obtain ⟨q, sv, ca, cr, cc⟩ := s
  unfold LEDSpace.get_LEDs_in_area
  cases hm : memoLookup ca (x, y, w, h) with
  | some res => exact hinv
  | none =>
      rcases hinv with ⟨hq, hs⟩ | ⟨hq, hs⟩
      · simp only at hq hs
        subst hs
        cases q with
        | none => exact absurd rfl hq
        | some ls => simp [LEDSpace.restore_quadtree, LifecycleInv]
      · simp only at hq hs
        subst hq
        cases sv with
        | none => exact absurd rfl hs
        | some vs => simp [LEDSpace.restore_quadtree, LifecycleInv]

theorem lifecycleInv_radius (s : LEDSpace) (x y r : ℚ) (hinv : LifecycleInv s) :
    LifecycleInv (s.get_LEDs_in_radius_state x y r) := by
  obtain ⟨q, sv, ca, cr, cc⟩ := s
  unfold LEDSpace.get_LEDs_in_radius_state
  split
  · exact hinv
  · rcases hinv with ⟨hq, hs⟩ | ⟨hq, hs⟩
    · simp only at hq hs
      subst hs
      cases q with
      | none => exact absurd rfl hq
      | some ls => simp [LEDSpace.restore_quadtree, LifecycleInv]
    · simp only at hq hs
      subst hq
      cases sv with
      | none => exact absurd rfl hs
      | some vs => simp [LEDSpace.restore_quadtree, LifecycleInv]

theorem lifecycleInv_closest (s : LEDSpace) (x y d : ℚ) (hinv : LifecycleInv s) :
    LifecycleInv (s.get_closest_LED_index x y d).1 := by
  unfold LEDSpace.get_closest_LED_index
  cases hm : memoLookup s.cacheClosest (x, y, d) with
  | some res => exact hinv
  | none =>
      have harea := lifecycleInv_area s x y (d * 2) (d * 2) hinv
      cases ha : s.get_LEDs_in_area x y (d * 2) (d * 2) with
      | mk s1 res =>
          rw [ha] at harea
          cases res with
          | none => exact harea
          | some results =>
              obtain ⟨q, sv, ca, cr, cc⟩ := s1
              exact (lifecycleInv_cache_irrelevant q sv ca ca cr cr _ _).mp harea

/-- C8 amended: the lifecycle invariant (attached with no saved list, or
detached with a saved list) holds initially and is preserved by
`save_quadtree_values_in_list`, `restore_quadtree`, every query call, and
by `map_LEDs_in_zigzag` whenever the structure is attached; mapping while
detached instead leaves both the quadtree and the saved list populated
(see the counterexample), so the invariant holds on exactly those call
sequences that never map while detached. -/
theorem lifecycle_invariant_preserved (s : LEDSpace) (op : LEDOp)
    (hinv : LifecycleInv s)
    (hmap : ∀ l, op = LEDOp.mapZ l → s.quadtree ≠ none) :
    LifecycleInv LEDSpace.init ∧ LifecycleInv (LEDStep s op) := by
  refine ⟨by simp [LEDSpace.init, LifecycleInv], ?_⟩
  cases op with
  | mapZ l =>
      have hq : s.quadtree ≠ none := hmap l rfl
      have hs : s.savedValues = none := by
        rcases hinv with ⟨_, h⟩ | ⟨h, _⟩
        · exact h
        · exact absurd h hq
      obtain ⟨q, sv, ca, cr, cc⟩ := s
      simp only at hs
      subst hs
      simp only [LEDStep, LEDSpace.map_LEDs_in_zigzag]
      cases zigzagLEDs l with
      | none => simp [LifecycleInv]
      | some ls => simp [LifecycleInv]
  | save =>
      obtain ⟨q, sv, ca, cr, cc⟩ := s
      simp only [LEDStep, LEDSpace.save_quadtree_values_in_list]
      cases q with
      | none => exact hinv
      | some ls => simp [LifecycleInv]
  | restore =>
      obtain ⟨q, sv, ca, cr, cc⟩ := s
      simp only [LEDStep, LEDSpace.restore_quadtree]
      cases sv with
      | none => exact hinv
      | some vs => simp [LifecycleInv]
  | area x y w h => exact lifecycleInv_area s x y w h hinv
  | radius x y r => exact lifecycleInv_radius s x y r hinv
  | closest x y d => exact lifecycleInv_closest s x y d hinv

/-- C8 amended witness: a save call on the freshly mapped space preserves
the invariant. -/
theorem lifecycle_invariant_preserved_witness :
    LifecycleInv LEDSpace.init ∧
      LifecycleInv (LEDStep (LEDSpace.init.map_LEDs_in_zigzag [1]) .save) :=
  lifecycle_invariant_preserved (LEDSpace.init.map_LEDs_in_zigzag [1]) .save
    (by simp [LEDSpace.init, LEDSpace.map_LEDs_in_zigzag, zigzagLEDs_one, LifecycleInv])
    (fun l h => nomatch h)

/-- C6 counterexample: a block that raises leaves the replacement strategy
active.  `with_cartesian` on a linear-indexed ceiling with an
immediately-raising block propagates the exception out of a ceiling whose
strategy is still the cartesian one, not the saved linear one: the restore
is skipped on the exceptional exit path. -/
theorem with_cartesian_skips_restore_on_raise :
    Ceiling.with_cartesian Unit ⟨.linear⟩ (fun c => .error ((), c)) [1] (1/5) =
        .error ((), ⟨.cartesian [1] (1/5)⟩) ∧
      Strategy.cartesian [1] (1/5) ≠ .linear := by
  exact ⟨rfl, fun h => nomatch h⟩

/-- C6 amended: each of the six scoped helpers restores the previously
active strategy on normal completion of the block; when the block raises,
the helper propagates the exception and the replacement strategy remains
active (the restore is skipped), because the write-back is a plain
statement after the block call rather than a guaranteed-restore
construction. -/
theorem with_helpers_restore_on_ok (E : Type) (c : Ceiling)
    (block : Ceiling → Except (E × Ceiling) Ceiling)
    (origin : ℚ × ℚ) (rows : List ℤ) (r : ℚ) :
    (∀ c2, block c.use_linear = .ok c2 →
        Ceiling.with_linear E c block = .ok { c2 with indexing := c.indexing }) ∧
      (∀ e c2, block c.use_linear = .error (e, c2) →
        Ceiling.with_linear E c block = .error (e, c2)) ∧
      (∀ c2, block (c.use_row CEILING_ROW_ARRANGEMENT) = .ok c2 →
        Ceiling.with_row E c block = .ok { c2 with indexing := c.indexing }) ∧
      (∀ e c2, block (c.use_row CEILING_ROW_ARRANGEMENT) = .error (e, c2) →
        Ceiling.with_row E c block = .error (e, c2)) ∧
      (∀ c2, block (c.use_cartesian rows r) = .ok c2 →
        Ceiling.with_cartesian E c block rows r = .ok { c2 with indexing := c.indexing }) ∧
      (∀ e c2, block (c.use_cartesian rows r) = .error (e, c2) →
        Ceiling.with_cartesian E c block rows r = .error (e, c2)) ∧
      (∀ c2, block (c.use_polar origin rows r) = .ok c2 →
        Ceiling.with_polar E c block origin rows r = .ok { c2 with indexing := c.indexing }) ∧
      (∀ e c2, block (c.use_polar origin rows r) = .error (e, c2) →
        Ceiling.with_polar E c block origin rows r = .error (e, c2)) ∧
      (∀ c2, block (c.use_float_cartesian rows r) = .ok c2 →
        Ceiling.with_float_cartesian E c block rows r = .ok { c2 with indexing := c.indexing }) ∧
      (∀ e c2, block (c.use_float_cartesian rows r) = .error (e, c2) →
        Ceiling.with_float_cartesian E c block rows r = .error (e, c2)) ∧
      (∀ c2, block (c.use_float_polar origin rows r) = .ok c2 →
        Ceiling.with_float_polar E c block origin rows r = .ok { c2 with indexing := c.indexing }) ∧
      (∀ e c2, block (c.use_float_polar origin rows r) = .error (e, c2) →
        Ceiling.with_float_polar E c block origin rows r = .error (e, c2)) := by
  refine ⟨?_, ?_, ?_, ?_, ?_, ?_, ?_, ?_, ?_, ?_, ?_, ?_⟩ <;> intros <;>
    rename_i h <;>
    simp only [Ceiling.with_linear, Ceiling.with_row, Ceiling.with_cartesian,
      Ceiling.with_polar, Ceiling.with_float_cartesian, Ceiling.with_float_polar] <;>
    rw [h]

/-- C6 amended witness: `with_linear` on a row-indexed ceiling with a block
that completes normally restores the row strategy. -/
theorem with_helpers_restore_on_ok_witness :
    Ceiling.with_linear Unit ⟨.row []⟩ (fun c => .ok c) = .ok ⟨.row []⟩ :=
  (with_helpers_restore_on_ok Unit ⟨.row []⟩ (fun c => .ok c) (0, 0) [] 0).1
    ⟨.linear⟩ rfl

/-- C9: the circle-mask generator samples exactly `number_points` points on
the circle around the centre, at angles starting at 0 and strictly
increasing within `[0, 2π)` (equally spaced by `2π / number_points`); it is
deterministic (a pure function of its arguments); and `get_LEDs_in_radius`
invokes it with `number_points = 10` as the mask polygon. -/
theorem mask_for_radius_spec (x y r : ℝ) (n : ℕ) :
    (mask_for_radius x y r n).length = n ∧
      maskTheta n 0 = 0 ∧
      (∀ i, i < n → (mask_for_radius x y r n)[i]? =
        some (Real.cos (maskTheta n i) * r + x, Real.sin (maskTheta n i) * r + y)) ∧
      (∀ i j, i < j → j < n → maskTheta n i < maskTheta n j) ∧
      (∀ i, i < n → 0 ≤ maskTheta n i ∧ maskTheta n i < 2 * Real.pi) ∧
      (∀ x2 y2 r2 m, x = x2 → y = y2 → r = r2 → n = m →
        mask_for_radius x y r n = mask_for_radius x2 y2 r2 m) ∧
      (∀ (lights : List LED) (led : LED), ledInRadius lights x y r led ↔
        led ∈ lights ∧
          inPolygon (mask_for_radius x y r 10) ((led.x : ℝ), (led.y : ℝ))) := by
  refine ⟨?_, ?_, ?_, ?_, ?_, ?_, ?_⟩
  · simp [mask_for_radius]
  · simp [maskTheta]
  · intro i hi
    simp [mask_for_radius, List.getElem?_map, List.getElem?_range, hi]
  · intro i j hij hjn
    unfold maskTheta
    have hn : (0 : ℝ) < (n : ℝ) := by
      have h0 : 0 < n := lt_of_le_of_lt (Nat.zero_le _) hjn
      exact_mod_cast h0
    have hpos : (0 : ℝ) < 2 * Real.pi / (n : ℝ) := by positivity
    have hcast : (i : ℝ) < (j : ℝ) := by exact_mod_cast hij
    nlinarith
  · intro i hi
    unfold maskTheta
    have hn : (0 : ℝ) < (n : ℝ) := by
      have h0 : 0 < n := lt_of_le_of_lt (Nat.zero_le _) hi
      exact_mod_cast h0
    refine ⟨by positivity, ?_⟩
    have hin : (i : ℝ) < (n : ℝ) := by exact_mod_cast hi
    rw [div_mul_eq_mul_div, div_lt_iff₀ hn]
    nlinarith [Real.pi_pos]
  · rintro x2 y2 r2 m rfl rfl rfl rfl
    rfl
  · intro lights led
    exact Iff.rfl

/-- C9 witness at the sole call-site parameters (10 sample points). -/
theorem mask_for_radius_spec_witness :
    (mask_for_radius 0 0 1 10).length = 10 ∧ maskTheta 10 0 = 0 :=
  ⟨(mask_for_radius_spec 0 0 1 10).1, (mask_for_radius_spec 0 0 1 10).2.1⟩
